import Mathlib

/-!
Verification development for the mailbox-to-spreadsheet pipeline
(main.py, src/imap/handler.py, src/excel_manager.py, src/lm_studio_client.py,
src/utils/stats.py).

The Python source is embedded shallowly:
* pure parsing code becomes Lean functions,
* stateful code threads explicit `ProcessingStats` / table values,
* code that can raise returns `Except`, where the `error` payload carries the
  mutable state as it stands when the exception leaves the function.
Dictionary lookups on the configuration are modelled as total functions: the
configuration is loaded once from `config.yaml` and `load_config` /
`check_structure` validate the keys used here before any of the modelled
code runs.
-/

namespace EmailPipeline

/-- src/utils/stats.py, class ProcessingStats: three counters. -/
structure ProcessingStats where
  processed_emails : Nat
  updated_rows : Nat
  errors : Nat
deriving DecidableEq

/-! ## MIME messages (email.message objects as seen by handler.py) -/

/-- A parsed MIME part: content type, the value of
`str(part.get("Content-Disposition"))` (the string "None" when the header is
absent), the decoded payload, and the sub-parts.  A part is multipart exactly
when it has sub-parts; for objects produced by the email parser a part with
sub-parts has a `multipart/*` content type and its own payload string is never
consulted. -/
inductive MimePart where
  | mk (contentType : String) (contentDisposition : String)
       (payload : String) (subparts : List MimePart)

def MimePart.contentType : MimePart → String
  | .mk ct _ _ _ => ct

def MimePart.contentDisposition : MimePart → String
  | .mk _ cd _ _ => cd

def MimePart.payload : MimePart → String
  | .mk _ _ p _ => p

def MimePart.subparts : MimePart → List MimePart
  | .mk _ _ _ s => s

/-- `msg.is_multipart()`: the payload is a list of sub-parts. -/
def MimePart.is_multipart (m : MimePart) : Bool :=
  !m.subparts.isEmpty

mutual

/-- `msg.walk()`: depth-first traversal, the part itself first, then its
sub-parts in original order. -/
def MimePart.walk : MimePart → List MimePart
  | .mk ct cd p subs => .mk ct cd p subs :: walkList subs

def walkList : List MimePart → List MimePart
  | [] => []
  | m :: ms => m.walk ++ walkList ms

end

/-- Python `needle in haystack` on strings, on the underlying char lists. -/
def listContainsSub (needle : List Char) : List Char → Bool
  | [] => needle.isEmpty
  | c :: cs => needle.isPrefixOf (c :: cs) || listContainsSub needle cs

def containsSub (needle haystack : String) : Bool :=
  listContainsSub needle.data haystack.data

/-- Python `s.lower()` (and pandas `.str.lower()`): lower-case character by
character. -/
def lowerStr (s : String) : String :=
  String.mk (s.data.map Char.toLower)

/-- The loop body of `IMAPHandler._get_email_body` over the walk order:
`if content_type == "text/plain" and "attachment" not in content_disposition:
return ...` / `elif content_type == "text/html" and ...: return ...`;
falling off the loop returns Python `None`, modelled as `none`. -/
def findBody : List MimePart → Option String
  | [] => none
  | p :: ps =>
    if p.contentType == "text/plain" && !containsSub "attachment" p.contentDisposition then
      some p.payload
    else if p.contentType == "text/html" && !containsSub "attachment" p.contentDisposition then
      some p.payload
    else findBody ps

/-- `IMAPHandler._get_email_body`: multipart messages are scanned along
`msg.walk()`; a non-multipart message returns its own decoded payload. -/
def get_email_body (m : MimePart) : Option String :=
  if m.is_multipart then findBody m.walk
  else some m.payload

/-- The combined match condition of the two return branches in
`_get_email_body`: a non-attachment `text/plain` or `text/html` part. -/
def isBodyCandidate (p : MimePart) : Bool :=
  (p.contentType == "text/plain" || p.contentType == "text/html")
    && !containsSub "attachment" p.contentDisposition

/-! ## Threads and messages as consumed by the orchestrator (main.py)

`IMAPHandler.get_email_threads` is absent from the source; the records below
follow spec section 3 ("Message: attributes {id, subject, from, to,
message-id, body, processed-flag}", "Thread: a sent message plus its
correlated replies ... and shared context"), keeping only the attributes the
orchestrator reads. -/

/-- A message record inside a thread: the fields `process_emails` reads
(`message["from"]`, `message["message_id"]`, `message["body"]`,
`message.get("processed")`). -/
structure ThreadMessage where
  fromAddr : String
  messageId : String
  body : String
  processed : Bool
deriving DecidableEq

/-- A thread record: `thread["messages"]` and `thread.get("context")`. -/
structure Thread where
  messages : List ThreadMessage
  context : Option String
deriving DecidableEq

/-! ## Tabular store (src/excel_manager.py) -/

/-- One spreadsheet row: association list from physical column header to the
string cell value (`pd.read_excel(..., dtype=str).fillna("")`). -/
abbrev Row := List (String × String)

/-- Reading a cell of a row by physical column header. -/
def getCell (r : Row) (c : String) : String :=
  ((r.find? (fun p => p.1 == c)).map (fun p => p.2)).getD ""

/-- Writing a cell of a row (`self.data.at[index, col] = value`); loaded rows
have one entry per header. -/
def setCell (r : Row) (c v : String) : Row :=
  r.map (fun p => if p.1 == c then (p.1, v) else p)

/-- Whether the row has the given physical column; `check_structure` raises
unless every configured column header is present in the loaded file. -/
def hasCol (r : Row) (c : String) : Bool :=
  r.any (fun p => p.1 == c)

/-- The `excel` section of the configuration as `ExcelManager.__init__` keeps
it: `self.columns` (logical field name to physical header, total because the
configuration is fixed and validated), `self.target_columns`, and
`self.backup_keep_days`. -/
structure ExcelConfig where
  colMap : String → String
  targetColumns : List String
  backupKeepDays : Int

/-- `self.columns["mail"]`: the physical header of the mail column. -/
def ExcelConfig.mailCol (cfg : ExcelConfig) : String :=
  cfg.colMap "mail"

/-- Python dict membership / subscription on the analysis-result mapping. -/
def lookupA (l : List (String × String)) (k : String) : Option String :=
  (l.find? (fun p => p.1 == k)).map (fun p => p.2)

/-- A flat analysis-result mapping (decoded JSON object of string fields). -/
abbrev AnalysisResult := List (String × String)

/-- `"error" in analysis_result`. -/
def hasErrKey (res : AnalysisResult) : Bool :=
  (lookupA res "error").isSome

/-- One `logger.info("Updated row {index} for column {target_column}:
{old_value} -> {new_value}")` record emitted by `update_data`. -/
structure LogEntry where
  rowIdx : Nat
  field : String
  oldVal : String
  newVal : String
deriving DecidableEq

/-- The row-match test `self.data[self.columns["mail"]].str.lower() ==
email.lower()`. -/
def isMatch (cfg : ExcelConfig) (email : String) (r : Row) : Bool :=
  lowerStr (getCell r cfg.mailCol) == lowerStr email

/-- One iteration of the inner loop of `update_data` for one target field:
`if target_column in analysis_results: old = data.at[...]; if old != new:
data.at[...] = new; log`. -/
def applyField (cfg : ExcelConfig) (analysis : AnalysisResult) (idx : Nat)
    (t : String) (acc : Row × List LogEntry) : Row × List LogEntry :=
  match lookupA analysis t with
  | none => acc
  | some v =>
    let col := cfg.colMap t
    let old := getCell acc.1 col
    if old = v then acc
    else (setCell acc.1 col v, acc.2 ++ [⟨idx, t, old, v⟩])

/-- The inner loop `for target_column in self.target_columns` of
`update_data`, on one matched row. -/
def applyFields (cfg : ExcelConfig) (analysis : AnalysisResult) (idx : Nat) :
    List String → Row × List LogEntry → Row × List LogEntry
  | [], acc => acc
  | t :: ts, acc => applyFields cfg analysis idx ts (applyField cfg analysis idx t acc)

/-- The outer loop `for index, row in matching_rows.iterrows()` of
`update_data`: rows are visited in index order, only matched rows are
rewritten (writes through `data.at[index, ...]` touch only row `index`);
returns the new table, the number of matched rows (`len(matching_rows)`)
and the change log. -/
def updateTable (cfg : ExcelConfig) (email : String) (analysis : AnalysisResult) :
    Nat → List Row → List Row × Nat × List LogEntry
  | _, [] => ([], 0, [])
  | i, r :: rs =>
    let rest := updateTable cfg email analysis (i + 1) rs
    if isMatch cfg email r then
      let upd := applyFields cfg analysis i cfg.targetColumns (r, [])
      (upd.1 :: rest.1, rest.2.1 + 1, upd.2 ++ rest.2.2)
    else (r :: rest.1, rest.2.1, rest.2.2)

/-- `ExcelManager.update_data(email, thread_data, analysis_results)`: selects
the rows whose lower-cased mail column equals the lower-cased email; zero
matches logs a warning and returns with nothing changed; otherwise every
matched row is updated field by field and `stats.updated_rows` grows by the
number of matched rows.  `thread_data` is accepted and never read, as in the
source. -/
def update_data (cfg : ExcelConfig) (table : List Row) (stats : ProcessingStats)
    (email : String) (thread_data : Thread) (analysis : AnalysisResult) :
    List Row × ProcessingStats × List LogEntry :=
  let res := updateTable cfg email analysis 0 table
  if res.2.1 = 0 then (table, stats, [])
  else (res.1, { stats with updated_rows := stats.updated_rows + res.2.1 }, res.2.2)

/-! ## Backup cleanup (ExcelManager.cleanup_old_backups) -/

/-- An entry of `backup_dir.iterdir()`: its name, whether it is a regular
file, and its `st_mtime` in whole seconds. -/
structure BackupFile where
  name : String
  isFile : Bool
  mtime : Int
deriving DecidableEq

/-- `(datetime.now() - datetime.fromtimestamp(f.stat().st_mtime)).days`:
Python `timedelta.days` floors the difference to whole days. -/
def file_age_days (now mtime : Int) : Int :=
  Int.fdiv (now - mtime) 86400

/-- The deletion condition of `cleanup_old_backups`. -/
def isStaleBackup (cfg : ExcelConfig) (now : Int) (f : BackupFile) : Bool :=
  f.isFile && decide (file_age_days now f.mtime > cfg.backupKeepDays)

/-- `ExcelManager.cleanup_old_backups`: unlinks every regular file whose
whole-day age exceeds `self.backup_keep_days`; returns the remaining entries
and the deleted ones. -/
def cleanup_old_backups (cfg : ExcelConfig) (now : Int) :
    List BackupFile → List BackupFile × List BackupFile
  | [] => ([], [])
  | f :: fs =>
    let rest := cleanup_old_backups cfg now fs
    if isStaleBackup cfg now f then (rest.1, f :: rest.2)
    else (f :: rest.1, rest.2)

/-! ## Mailbox client (src/imap/handler.py) -/

/-- A fetched RFC-822 message as `email.message_from_bytes` presents it to
`_parse_email`: the headers it reads and the MIME tree.  Header values are
modelled as present strings (a missing `From`/`To` header is outside the
behaviour the spec claims describe). -/
structure RawEmail where
  subjectHdr : String
  fromHdr : String
  toHdr : String
  messageIdHdr : String
  mime : MimePart

/-- Shallow model of `email.utils.parseaddr(s)[1]`: the addr-spec between
angle brackets when present, otherwise the string itself. -/
def parseAddrSpec (s : String) : String :=
  let cs := s.data
  if cs.contains '<' then
    String.mk (((cs.dropWhile (fun c => c != '<')).drop 1).takeWhile (fun c => c != '>'))
  else s

/-- The record built by `IMAPHandler._parse_email` (its internal
`try/except` never fires for the raw messages modelled here, so the
happy-path dict is returned). -/
structure ParsedEmail where
  id : String
  subject : String
  fromAddr : String
  toAddr : String
  messageId : String
  body : Option String
deriving DecidableEq

def parse_email (raw : RawEmail) (email_id : String) : ParsedEmail :=
  { id := email_id
    subject := raw.subjectHdr
    fromAddr := parseAddrSpec raw.fromHdr
    toAddr := parseAddrSpec raw.toHdr
    messageId := raw.messageIdHdr
    body := get_email_body raw.mime }

/-- The IMAP server's responses for one fetch operation, after folder
selection and search criterion are fixed: `select` and `search` either raise
(`Except.error`) or return; `search` returns a status and the message ids;
`fetch i` either raises or returns a status and the raw message. -/
structure ImapSession where
  selectResult : Except Unit Unit
  searchResult : Except Unit (String × List Nat)
  fetchResult : Nat → Except Unit (String × RawEmail)

/-- Whether a modelled IMAP call raises. -/
def raises {α : Type} : Except Unit α → Bool
  | Except.error _ => true
  | Except.ok _ => false

/-- The per-id fetch status test: fetch succeeded with status `"OK"`. -/
def fetchOK (sess : ImapSession) (i : Nat) : Bool :=
  match sess.fetchResult i with
  | Except.ok (st, _) => st == "OK"
  | Except.error _ => false

/-- The `for email_id in email_ids` loop shared by `fetch_sent_emails` and
`fetch_replies`: a fetch that raises aborts the whole loop (the exception
reaches the outer handler, so the accumulated list is discarded); a fetch
returning a non-OK status logs and skips the id; a successful fetch appends
the parsed message and increments `stats.processed_emails`. -/
def fetchLoop (sess : ImapSession) :
    ProcessingStats → List Nat → Except ProcessingStats (List ParsedEmail × ProcessingStats)
  | stats, [] => Except.ok ([], stats)
  | stats, i :: rest =>
    match sess.fetchResult i with
    | Except.error _ => Except.error stats
    | Except.ok (st, raw) =>
      if st = "OK" then
        match fetchLoop sess { stats with processed_emails := stats.processed_emails + 1 } rest with
        | Except.ok (es, s) => Except.ok (parse_email raw (toString i) :: es, s)
        | Except.error s => Except.error s
      else fetchLoop sess stats rest

/-- The body of the `try` block of `IMAPHandler.fetch_sent_emails`: select the
sent folder, search `ALL`; a non-OK search status returns the empty list
(only a warning is logged); otherwise run the fetch loop.  An `Except.error`
carries the stats at the point the exception escapes. -/
def fetchSentCore (sess : ImapSession) (stats : ProcessingStats) :
    Except ProcessingStats (List ParsedEmail × ProcessingStats) :=
  match sess.selectResult with
  | Except.error _ => Except.error stats
  | Except.ok _ =>
    match sess.searchResult with
    | Except.error _ => Except.error stats
    | Except.ok (status, ids) =>
      if status = "OK" then fetchLoop sess stats ids
      else Except.ok ([], stats)

/-- `IMAPHandler.fetch_sent_emails`: the enclosing `except Exception` returns
`[]` and increments `stats.errors` once. -/
def fetch_sent_emails (sess : ImapSession) (stats : ProcessingStats) :
    List ParsedEmail × ProcessingStats :=
  match fetchSentCore sess stats with
  | Except.ok r => r
  | Except.error s => ([], { s with errors := s.errors + 1 })

/-- The body of the `try` block of `IMAPHandler.fetch_replies`: textually the
same fetch machinery as `fetch_sent_emails`, with the configured folder and
the `HEADER "References" <message-id>` search criterion fixing the session's
responses. -/
def fetchRepliesCore (sentMessageId : String) (sess : ImapSession) (stats : ProcessingStats) :
    Except ProcessingStats (List ParsedEmail × ProcessingStats) :=
  match sess.selectResult with
  | Except.error _ => Except.error stats
  | Except.ok _ =>
    match sess.searchResult with
    | Except.error _ => Except.error stats
    | Except.ok (status, ids) =>
      if status = "OK" then fetchLoop sess stats ids
      else Except.ok ([], stats)

/-- `IMAPHandler.fetch_replies(sent_email)`: same failure handling as
`fetch_sent_emails`. -/
def fetch_replies (sentMessageId : String) (sess : ImapSession) (stats : ProcessingStats) :
    List ParsedEmail × ProcessingStats :=
  match fetchRepliesCore sentMessageId sess stats with
  | Except.ok r => r
  | Except.error s => ([], { s with errors := s.errors + 1 })

/-- The methods defined on `class IMAPHandler` in src/imap/handler.py. -/
def IMAPHandler.methodNames : List String :=
  ["__init__", "connect", "fetch_sent_emails", "fetch_replies",
   "_parse_email", "_get_email_body", "disconnect"]

/-! ## Orchestrator (main.py, process_emails) -/

/-- The state the orchestrator mutates: the in-memory table, the shared
counters, and the set of message ids marked read on the server. -/
structure PipelineState where
  table : List Row
  stats : ProcessingStats
  readIds : List String
deriving DecidableEq

/-- Modelled from the spec: `IMAPHandler.mark_as_read(message_id)` is absent
from src/imap/handler.py; spec section 4.2 says it "sets the read flag on the
server for the given message". -/
def mark_as_read (readIds : List String) (messageId : String) : List String :=
  readIds ++ [messageId]

/-- Modelled from the spec: `IMAPHandler.get_email_threads()` is absent from
the source; spec sections 2 and 4.2 describe it as listing message threads
(sent messages and their correlated replies).  It is modelled as returning
the thread list the mailbox holds, supplied as a parameter. -/
def get_email_threads (threads : List Thread) : List Thread :=
  threads

/-- The inner `for message in thread["messages"]` loop of `process_emails`:
skip processed messages; `analyze_email` raising escapes the loop (the state
at the raise is the `error` payload); an `"error"` key in the result logs and
continues; otherwise `update_data`, `mark_as_read`, and
`stats.processed_emails += 1`. -/
def processThreadMsgs (cfg : ExcelConfig) (analyze : String → Option String → Except Unit AnalysisResult)
    (th : Thread) : List ThreadMessage → PipelineState → Except PipelineState PipelineState
  | [], st => Except.ok st
  | m :: ms, st =>
    if m.processed then processThreadMsgs cfg analyze th ms st
    else
      match analyze m.body th.context with
      | Except.error _ => Except.error st
      | Except.ok res =>
        if hasErrKey res then processThreadMsgs cfg analyze th ms st
        else
          let u := update_data cfg st.table st.stats m.fromAddr th res
          processThreadMsgs cfg analyze th ms
            { table := u.1
              stats := { u.2.1 with processed_emails := u.2.1.processed_emails + 1 }
              readIds := mark_as_read st.readIds m.messageId }

/-- The outer `for thread in imap_handler.get_email_threads()` loop. -/
def processThreads (cfg : ExcelConfig) (analyze : String → Option String → Except Unit AnalysisResult) :
    List Thread → PipelineState → Except PipelineState PipelineState
  | [], st => Except.ok st
  | th :: ths, st =>
    match processThreadMsgs cfg analyze th th.messages st with
    | Except.error st' => Except.error st'
    | Except.ok st' => processThreads cfg analyze ths st'

/-- `process_emails`: the whole loop sits in one `try`; `except Exception`
logs, increments `stats.errors`, and re-raises. -/
def process_emails (cfg : ExcelConfig) (analyze : String → Option String → Except Unit AnalysisResult)
    (threads : List Thread) (st : PipelineState) : Except PipelineState PipelineState :=
  match processThreads cfg analyze (get_email_threads threads) st with
  | Except.ok st' => Except.ok st'
  | Except.error st' =>
    Except.error { st' with stats := { st'.stats with errors := st'.stats.errors + 1 } }

/-- CPython attribute resolution at the very first statement of the `try`
block of `process_emails`: the call `imap_handler.get_email_threads()` first
looks the name up on `class IMAPHandler`; a name the class does not define
raises `AttributeError`, which the surrounding `except Exception` counts and
re-raises. -/
def process_emails_run (cfg : ExcelConfig) (analyze : String → Option String → Except Unit AnalysisResult)
    (threads : List Thread) (st : PipelineState) : Except PipelineState PipelineState :=
  if IMAPHandler.methodNames.contains "get_email_threads" then
    process_emails cfg analyze threads st
  else
    Except.error { st with stats := { st.stats with errors := st.stats.errors + 1 } }

/-! ## End of run (main.py, main) -/

/-- The tabular file on disk (`self.file_path`). -/
structure Disk where
  content : List Row
deriving DecidableEq

/-- `ExcelManager.save_data`: overwrite the file with the in-memory table. -/
def save_data (table : List Row) (d : Disk) : Disk :=
  ⟨table⟩

/-- The tail of `main` after `load_data`: run `process_emails`; on success
call `save_data` and exit 0; an exception skips `save_data` and reaches the
outer `except Exception`, which exits with code 1.  Returns (exit code, disk
after the run, whether `save_data` was invoked, final state). -/
def runAfterLoad (res : Except PipelineState PipelineState) (disk : Disk) :
    Nat × Disk × Bool × PipelineState :=
  match res with
  | Except.ok st' => (0, save_data st'.table disk, true, st')
  | Except.error st' => (1, disk, false, st')

/-- Whether the orchestrator's success branch runs for a message: not yet
processed, `analyze_email` returns, and the result carries no `"error"`
key. -/
def analysisSucceeds (analyze : String → Option String → Except Unit AnalysisResult)
    (ctx : Option String) (m : ThreadMessage) : Bool :=
  !m.processed
    && (match analyze m.body ctx with
        | Except.ok res => !hasErrKey res
        | Except.error _ => false)

/-- No message of the thread makes `analyze_email` raise. -/
def noAnalysisExn (analyze : String → Option String → Except Unit AnalysisResult)
    (th : Thread) : Bool :=
  th.messages.all (fun m => m.processed || !raises (analyze m.body th.context))

/-- Messages of one thread the orchestrator counts as processed. -/
def threadSuccCount (analyze : String → Option String → Except Unit AnalysisResult)
    (th : Thread) : Nat :=
  (th.messages.filter (analysisSucceeds analyze th.context)).length

/-- Messages of the whole run the orchestrator counts as processed. -/
def totalSuccCount (analyze : String → Option String → Except Unit AnalysisResult)
    (threads : List Thread) : Nat :=
  (threads.map (threadSuccCount analyze)).sum

/-! ## Selecting log lines, and concrete inputs used in witnesses -/

/-- The `update_data` log lines concerning row `i` and target field `t`. -/
def logsFor (logs : List LogEntry) (i : Nat) (t : String) : List LogEntry :=
  logs.filter (fun e => e.rowIdx == i && e.field == t)

/-- A multipart message with the HTML part ahead of the plain part in walk
order. -/
def htmlFirstMsg : MimePart :=
  .mk "multipart/alternative" "None" ""
    [.mk "text/html" "None" "<p>hi</p>" [], .mk "text/plain" "None" "hi" []]

/-- A multipart message with the plain part ahead of the HTML part. -/
def plainFirstMsg : MimePart :=
  .mk "multipart/alternative" "None" ""
    [.mk "text/plain" "None" "hi" [], .mk "text/html" "None" "<p>hi</p>" []]

/-- A small concrete configuration: mail column `"Mail"`, one target field
`"status"` stored in column `"Status"`. -/
def wCfg : ExcelConfig :=
  { colMap := fun s => if s = "mail" then "Mail" else if s = "status" then "Status" else s
    targetColumns := ["status"]
    backupKeepDays := 7 }

/-- A two-row concrete table, both rows keyed by `a@b.c`. -/
def wTable : List Row :=
  [[("Mail", "A@b.c"), ("Status", "old")], [("Mail", "a@b.c"), ("Status", "new")]]

/-- An empty thread value for the unused `thread_data` argument. -/
def wThread : Thread :=
  ⟨[], none⟩

/-- A session whose search completes with a non-OK status. -/
def wSessNoStatus : ImapSession :=
  { selectResult := Except.ok ()
    searchResult := Except.ok ("NO", [])
    fetchResult := fun _ => Except.error () }

/-- A session that fetches two messages successfully. -/
def wSessTwo : ImapSession :=
  { selectResult := Except.ok ()
    searchResult := Except.ok ("OK", [1, 2])
    fetchResult := fun _ =>
      Except.ok ("OK", ⟨"s", "x@y.z", "u@v.w", "<m1>", .mk "text/plain" "None" "hello" []⟩) }

/-- A session whose second fetch raises. -/
def wSessFetchRaises : ImapSession :=
  { selectResult := Except.ok ()
    searchResult := Except.ok ("OK", [1, 2])
    fetchResult := fun i =>
      if i = 1 then
        Except.ok ("OK", ⟨"s", "x@y.z", "u@v.w", "<m1>", .mk "text/plain" "None" "hello" []⟩)
      else Except.error () }

/-- An analysis stub returning a logical error for body `"e"`, raising for
body `"raise"`, and otherwise succeeding with one extracted field. -/
def wAnalyze : String → Option String → Except Unit AnalysisResult :=
  fun body _ =>
    if body = "e" then Except.ok [("error", "model unavailable")]
    else if body = "raise" then Except.error ()
    else Except.ok [("status", "done")]

/-! ## Lemmas: body extraction -/

lemma findBody_eq_filter_head (l : List MimePart) :
    findBody l = ((l.filter isBodyCandidate).head?).map MimePart.payload := by
  induction l with
  | nil => rfl
  | cons p ps ih =>
    cases ha : (p.contentType == "text/plain") <;>
      cases hb : (p.contentType == "text/html") <;>
        cases hc : containsSub "attachment" p.contentDisposition <;>
          simp [findBody, isBodyCandidate, List.filter_cons, ha, hb, hc, ih]

/-! ## Claim C2 -/

/-- C2 counterexample: a multipart message with a non-attachment `text/html`
part before a non-attachment `text/plain` part.  `_get_email_body` returns
the HTML payload, not the decoded plain-text body, so the result does depend
on the order of the two parts. -/
theorem get_email_body_html_first_returns_html :
    htmlFirstMsg.is_multipart = true
    ∧ htmlFirstMsg.walk.any
        (fun p => p.contentType == "text/plain" && !containsSub "attachment" p.contentDisposition) = true
    ∧ htmlFirstMsg.walk.any
        (fun p => p.contentType == "text/html" && !containsSub "attachment" p.contentDisposition) = true
    ∧ get_email_body htmlFirstMsg = some "<p>hi</p>"
    ∧ get_email_body htmlFirstMsg ≠ some "hi" := by
  have hw : htmlFirstMsg.walk
      = [htmlFirstMsg, .mk "text/html" "None" "<p>hi</p>" [], .mk "text/plain" "None" "hi" []] := by
    simp [htmlFirstMsg, MimePart.walk, walkList]
  have hb : get_email_body htmlFirstMsg = findBody htmlFirstMsg.walk := rfl
  refine ⟨rfl, ?_, ?_, ?_, ?_⟩
  · rw [hw]; decide
  · rw [hw]; decide
  · rw [hb, hw]; decide
  · rw [hb, hw]; decide

/-- C2 (amended): for every multipart message, `_get_email_body` returns the
payload of the first non-attachment `text/plain` or `text/html` part in
depth-first walk order (so the plain-text body is returned exactly when the
plain part precedes every non-attachment HTML part, not regardless of
order). -/
theorem get_email_body_first_candidate (m : MimePart) (h : m.is_multipart = true) :
    get_email_body m = ((m.walk.filter isBodyCandidate).head?).map MimePart.payload := by
  simp [get_email_body, h, findBody_eq_filter_head]

/-- Witness for C2 (amended) at `plainFirstMsg`. -/
theorem get_email_body_first_candidate_witness :
    plainFirstMsg.is_multipart = true ∧ get_email_body plainFirstMsg = some "hi" := by
  have hw : plainFirstMsg.walk
      = [plainFirstMsg, .mk "text/plain" "None" "hi" [], .mk "text/html" "None" "<p>hi</p>" []] := by
    simp [plainFirstMsg, MimePart.walk, walkList]
  refine ⟨rfl, ?_⟩
  rw [get_email_body_first_candidate plainFirstMsg rfl, hw]
  decide

/-! ## Claim C9 -/

/-- C9: `cleanup_old_backups` deletes exactly the regular files whose
whole-day age strictly exceeds `backup_keep_days` and keeps every other
entry, in particular every file whose whole-day age is at most
`backup_keep_days`. -/
theorem cleanup_old_backups_exact (cfg : ExcelConfig) (now : Int) (files : List BackupFile) :
    (cleanup_old_backups cfg now files).2 = files.filter (fun f => isStaleBackup cfg now f)
    ∧ (cleanup_old_backups cfg now files).1 = files.filter (fun f => !isStaleBackup cfg now f) := by
  induction files with
  | nil => exact ⟨rfl, rfl⟩
  | cons f fs ih =>
    cases h : isStaleBackup cfg now f <;>
      simp [cleanup_old_backups, List.filter_cons, h, ih.1, ih.2]

/-! ## Claim C1 -/

/-- C1: `class IMAPHandler` defines neither `get_email_threads` nor
`mark_as_read`; hence in every run that reaches `process_emails` the very
first call of the loop raises `AttributeError`, the `except` branch
increments `stats.errors` and re-raises, `save_data` is never invoked, the
file on disk stays as it was, and the process exits with code 1 — no run
completes the pipeline. -/
theorem missing_methods_abort_every_run :
    IMAPHandler.methodNames.contains "get_email_threads" = false
    ∧ IMAPHandler.methodNames.contains "mark_as_read" = false
    ∧ ∀ (cfg : ExcelConfig) (analyze : String → Option String → Except Unit AnalysisResult)
        (threads : List Thread) (st : PipelineState) (disk : Disk),
        process_emails_run cfg analyze threads st
          = Except.error { st with stats := { st.stats with errors := st.stats.errors + 1 } }
        ∧ runAfterLoad (process_emails_run cfg analyze threads st) disk
          = (1, disk, false,
             { st with stats := { st.stats with errors := st.stats.errors + 1 } }) := by
  refine ⟨by decide, by decide, fun cfg analyze threads st disk => ?_⟩
  have hc : ¬ ("get_email_threads" ∈ IMAPHandler.methodNames) := by decide
  constructor
  · simp [process_emails_run, hc]
  · simp [process_emails_run, hc, runAfterLoad]

/-! ## Lemmas: single cells -/

lemma setCell_cons (a b : String) (rs : Row) (c v : String) :
    setCell ((a, b) :: rs) c v = (if a = c then (a, v) else (a, b)) :: setCell rs c v := by
  by_cases h : a = c <;> simp [setCell, h]

lemma getCell_cons (a b : String) (rs : Row) (c : String) :
    getCell ((a, b) :: rs) c = if a = c then b else getCell rs c := by
  by_cases h : a = c
  · simp [getCell, List.find?_cons, h]
  · have h' : (a == c) = false := by simp [h]
    simp [getCell, List.find?_cons, h', h]

lemma hasCol_cons (a b : String) (rs : Row) (c : String) :
    hasCol ((a, b) :: rs) c = (a == c || hasCol rs c) := by
  simp [hasCol]

lemma getCell_setCell_self (r : Row) (c v : String) (h : hasCol r c = true) :
    getCell (setCell r c v) c = v := by
  induction r with
  | nil => simp [hasCol] at h
  | cons p rs ih =>
    obtain ⟨a, b⟩ := p
    rw [setCell_cons]
    by_cases hac : a = c
    · simp [hac, getCell_cons]
    · have hac' : (a == c) = false := by simp [hac]
      rw [hasCol_cons, hac', Bool.false_or] at h
      rw [if_neg hac, getCell_cons, if_neg hac]
      exact ih h

lemma getCell_setCell_ne (r : Row) (c c' v : String) (h : c ≠ c') :
    getCell (setCell r c' v) c = getCell r c := by
  induction r with
  | nil => rfl
  | cons p rs ih =>
    obtain ⟨a, b⟩ := p
    rw [setCell_cons]
    by_cases hcc : a = c'
    · have hac : ¬ a = c := fun he => h (he ▸ hcc.symm ▸ rfl)
      rw [if_pos hcc, getCell_cons, if_neg hac, getCell_cons, if_neg hac]
      exact ih
    · rw [if_neg hcc, getCell_cons, getCell_cons]
      by_cases hac : a = c
      · rw [if_pos hac, if_pos hac]
      · rw [if_neg hac, if_neg hac]
        exact ih

lemma hasCol_setCell (r : Row) (c c' v : String) :
    hasCol (setCell r c' v) c = hasCol r c := by
  induction r with
  | nil => rfl
  | cons p rs ih =>
    obtain ⟨a, b⟩ := p
    rw [setCell_cons]
    by_cases hcc : a = c'
    · rw [if_pos hcc, hasCol_cons, hasCol_cons, ih]
    · rw [if_neg hcc, hasCol_cons, hasCol_cons, ih]

lemma logsFor_append (a b : List LogEntry) (i : Nat) (t : String) :
    logsFor (a ++ b) i t = logsFor a i t ++ logsFor b i t := by
  simp [logsFor, List.filter_append]

/-! ## Lemmas: one target field of one row -/

lemma applyField_fst_ne (cfg : ExcelConfig) (analysis : AnalysisResult) (idx : Nat)
    (t col : String) (acc : Row × List LogEntry) (h : cfg.colMap t ≠ col) :
    getCell (applyField cfg analysis idx t acc).1 col = getCell acc.1 col := by
  unfold applyField
  cases hv : lookupA analysis t with
  | none => rfl
  | some v =>
    by_cases heq : getCell acc.1 (cfg.colMap t) = v
    · simp [heq]
    · simp [heq, getCell_setCell_ne _ _ _ _ (Ne.symm h)]

lemma applyField_hasCol (cfg : ExcelConfig) (analysis : AnalysisResult) (idx : Nat)
    (t c : String) (acc : Row × List LogEntry) :
    hasCol (applyField cfg analysis idx t acc).1 c = hasCol acc.1 c := by
  unfold applyField
  cases hv : lookupA analysis t with
  | none => rfl
  | some v =>
    by_cases heq : getCell acc.1 (cfg.colMap t) = v
    · simp [heq]
    · simp [heq, hasCol_setCell]

lemma applyField_logsFor_ne (cfg : ExcelConfig) (analysis : AnalysisResult) (idx : Nat)
    (t' t : String) (i : Nat) (acc : Row × List LogEntry) (h : t' ≠ t) :
    logsFor (applyField cfg analysis idx t' acc).2 i t = logsFor acc.2 i t := by
  unfold applyField
  cases hv : lookupA analysis t' with
  | none => rfl
  | some v =>
    by_cases heq : getCell acc.1 (cfg.colMap t') = v
    · simp [heq]
    · simp [heq, logsFor_append, logsFor, h]

lemma applyField_mem_rowIdx (cfg : ExcelConfig) (analysis : AnalysisResult) (idx : Nat)
    (t : String) (acc : Row × List LogEntry) (e : LogEntry)
    (h : e ∈ (applyField cfg analysis idx t acc).2) : e ∈ acc.2 ∨ e.rowIdx = idx := by
  unfold applyField at h
  cases hv : lookupA analysis t with
  | none => rw [hv] at h; exact Or.inl h
  | some v =>
    rw [hv] at h
    by_cases heq : getCell acc.1 (cfg.colMap t) = v
    · simp [heq] at h
      exact Or.inl h
    · simp [heq] at h
      cases h with
      | inl h => exact Or.inl h
      | inr h => right; rw [h]

/-! ## Lemmas: the target-field loop -/

lemma applyFields_fst_ne (cfg : ExcelConfig) (analysis : AnalysisResult) (idx : Nat) :
    ∀ (ts : List String) (acc : Row × List LogEntry) (col : String),
      (∀ t' ∈ ts, cfg.colMap t' ≠ col) →
      getCell (applyFields cfg analysis idx ts acc).1 col = getCell acc.1 col := by
  intro ts
  induction ts with
  | nil => intro acc col _; rfl
  | cons t' rest ih =>
    intro acc col h
    have h1 : cfg.colMap t' ≠ col := h t' (List.mem_cons_self _ _)
    have h2 : ∀ u ∈ rest, cfg.colMap u ≠ col := fun u hu => h u (List.mem_cons_of_mem _ hu)
    calc getCell (applyFields cfg analysis idx (t' :: rest) acc).1 col
        = getCell (applyFields cfg analysis idx rest (applyField cfg analysis idx t' acc)).1 col := rfl
      _ = getCell (applyField cfg analysis idx t' acc).1 col := ih _ col h2
      _ = getCell acc.1 col := applyField_fst_ne cfg analysis idx t' col acc h1

lemma applyFields_hasCol (cfg : ExcelConfig) (analysis : AnalysisResult) (idx : Nat) :
    ∀ (ts : List String) (acc : Row × List LogEntry) (c : String),
      hasCol (applyFields cfg analysis idx ts acc).1 c = hasCol acc.1 c := by
  intro ts
  induction ts with
  | nil => intro acc c; rfl
  | cons t' rest ih =>
    intro acc c
    calc hasCol (applyFields cfg analysis idx (t' :: rest) acc).1 c
        = hasCol (applyField cfg analysis idx t' acc).1 c := ih _ c
      _ = hasCol acc.1 c := applyField_hasCol cfg analysis idx t' c acc

lemma applyFields_logsFor_ne (cfg : ExcelConfig) (analysis : AnalysisResult) (idx : Nat) :
    ∀ (ts : List String) (acc : Row × List LogEntry) (i : Nat) (t : String),
      t ∉ ts →
      logsFor (applyFields cfg analysis idx ts acc).2 i t = logsFor acc.2 i t := by
  intro ts
  induction ts with
  | nil => intro acc i t _; rfl
  | cons t' rest ih =>
    intro acc i t h
    have h1 : t' ≠ t := fun he => h (he ▸ List.mem_cons_self _ _)
    have h2 : t ∉ rest := fun hm => h (List.mem_cons_of_mem _ hm)
    calc logsFor (applyFields cfg analysis idx (t' :: rest) acc).2 i t
        = logsFor (applyField cfg analysis idx t' acc).2 i t := ih _ i t h2
      _ = logsFor acc.2 i t := applyField_logsFor_ne cfg analysis idx t' t i acc h1

lemma applyFields_mem_rowIdx (cfg : ExcelConfig) (analysis : AnalysisResult) (idx : Nat) :
    ∀ (ts : List String) (acc : Row × List LogEntry) (e : LogEntry),
      e ∈ (applyFields cfg analysis idx ts acc).2 → e ∈ acc.2 ∨ e.rowIdx = idx := by
  intro ts
  induction ts with
  | nil => intro acc e h; exact Or.inl h
  | cons t' rest ih =>
    intro acc e h
    have h' := ih (applyField cfg analysis idx t' acc) e h
    cases h' with
    | inl h' => exact applyField_mem_rowIdx cfg analysis idx t' acc e h'
    | inr h' => exact Or.inr h'

/-- How one target field of one matched row comes out of the field loop:
nothing changes and nothing is logged when the analysis value equals the
cell, otherwise the cell is overwritten and exactly one line logs old and
new value.  Requires the configured physical target columns to be distinct
(duplicate physical columns would let later fields clobber earlier ones). -/
lemma applyFields_field_char (cfg : ExcelConfig) (analysis : AnalysisResult) (idx : Nat) :
    ∀ (tc : List String) (r : Row) (l : List LogEntry) (t v : String),
      (tc.map cfg.colMap).Nodup → t ∈ tc → lookupA analysis t = some v →
      hasCol r (cfg.colMap t) = true →
      getCell (applyFields cfg analysis idx tc (r, l)).1 (cfg.colMap t)
        = (if getCell r (cfg.colMap t) = v then getCell r (cfg.colMap t) else v)
      ∧ logsFor (applyFields cfg analysis idx tc (r, l)).2 idx t
        = logsFor l idx t
            ++ (if getCell r (cfg.colMap t) = v then []
                else [⟨idx, t, getCell r (cfg.colMap t), v⟩]) := by
  intro tc
  induction tc with
  | nil =>
    intro r l t v _ ht _ _
    exact absurd ht (List.not_mem_nil t)
  | cons t' rest ih =>
    intro r l t v hnd ht hv hc
    have hnd0 := hnd
    rw [List.map_cons, List.nodup_cons] at hnd0
    have hnd1 : cfg.colMap t' ∉ rest.map cfg.colMap := hnd0.1
    have hnd2 : (rest.map cfg.colMap).Nodup := hnd0.2
    have hname : t' ∉ rest := fun hmem => hnd1 (List.mem_map_of_mem cfg.colMap hmem)
    by_cases het : t = t'
    · subst het
      have happ : applyField cfg analysis idx t (r, l)
          = if getCell r (cfg.colMap t) = v then (r, l)
            else (setCell r (cfg.colMap t) v,
                  l ++ [⟨idx, t, getCell r (cfg.colMap t), v⟩]) := by
        simp only [applyField, hv]
      have hne : ∀ u ∈ rest, cfg.colMap u ≠ cfg.colMap t :=
        fun u hu he => hnd1 (he ▸ List.mem_map_of_mem cfg.colMap hu)
      have hstep : applyFields cfg analysis idx (t :: rest) (r, l)
          = applyFields cfg analysis idx rest (applyField cfg analysis idx t (r, l)) := rfl
      by_cases hold : getCell r (cfg.colMap t) = v
      · rw [hstep, happ, if_pos hold]
        constructor
        · rw [applyFields_fst_ne cfg analysis idx rest (r, l) (cfg.colMap t) hne, if_pos hold]
        · rw [applyFields_logsFor_ne cfg analysis idx rest (r, l) idx t hname, if_pos hold,
            List.append_nil]
      · rw [hstep, happ, if_neg hold]
        constructor
        · rw [applyFields_fst_ne cfg analysis idx rest _ (cfg.colMap t) hne]
          rw [if_neg hold]
          exact getCell_setCell_self r (cfg.colMap t) v hc
        · rw [applyFields_logsFor_ne cfg analysis idx rest _ idx t hname, logsFor_append,
            if_neg hold]
          congr 1
          simp [logsFor]
    · have htr : t ∈ rest := by
        rcases List.mem_cons.mp ht with he | htr
        · exact absurd he het
        · exact htr
      have hcol_ne : cfg.colMap t' ≠ cfg.colMap t :=
        fun he => hnd1 (he ▸ List.mem_map_of_mem cfg.colMap htr)
      rcases hp : applyField cfg analysis idx t' (r, l) with ⟨r₁, l₁⟩
      have hstep : applyFields cfg analysis idx (t' :: rest) (r, l)
          = applyFields cfg analysis idx rest (r₁, l₁) := by
        show applyFields cfg analysis idx rest (applyField cfg analysis idx t' (r, l))
            = applyFields cfg analysis idx rest (r₁, l₁)
        rw [hp]
      have hg : getCell r₁ (cfg.colMap t) = getCell r (cfg.colMap t) := by
        have := applyField_fst_ne cfg analysis idx t' (cfg.colMap t) (r, l) hcol_ne
        rw [hp] at this
        exact this
      have hh : hasCol r₁ (cfg.colMap t) = true := by
        have := applyField_hasCol cfg analysis idx t' (cfg.colMap t) (r, l)
        rw [hp] at this
        rw [this]
        exact hc
      have hl : logsFor l₁ idx t = logsFor l idx t := by
        have := applyField_logsFor_ne cfg analysis idx t' t idx (r, l) (fun he => het he.symm)
        rw [hp] at this
        exact this
      have hih := ih r₁ l₁ t v hnd2 htr hv hh
      rw [hstep]
      constructor
      · rw [hih.1, hg]
      · rw [hih.2, hg, hl]

/-! ## Lemmas: the matched-row loop -/

lemma updateTable_fst_cons (cfg : ExcelConfig) (email : String) (analysis : AnalysisResult)
    (k : Nat) (r : Row) (rs : List Row) :
    (updateTable cfg email analysis k (r :: rs)).1
      = (if isMatch cfg email r then (applyFields cfg analysis k cfg.targetColumns (r, [])).1
         else r) :: (updateTable cfg email analysis (k + 1) rs).1 := by
  by_cases h : isMatch cfg email r <;> simp [updateTable, h]

lemma updateTable_count_cons (cfg : ExcelConfig) (email : String) (analysis : AnalysisResult)
    (k : Nat) (r : Row) (rs : List Row) :
    (updateTable cfg email analysis k (r :: rs)).2.1
      = (updateTable cfg email analysis (k + 1) rs).2.1
          + (if isMatch cfg email r then 1 else 0) := by
  by_cases h : isMatch cfg email r <;> simp [updateTable, h]

lemma updateTable_logs_cons (cfg : ExcelConfig) (email : String) (analysis : AnalysisResult)
    (k : Nat) (r : Row) (rs : List Row) :
    (updateTable cfg email analysis k (r :: rs)).2.2
      = (if isMatch cfg email r then (applyFields cfg analysis k cfg.targetColumns (r, [])).2
         else [])
          ++ (updateTable cfg email analysis (k + 1) rs).2.2 := by
  by_cases h : isMatch cfg email r <;> simp [updateTable, h]

lemma updateTable_length (cfg : ExcelConfig) (email : String) (analysis : AnalysisResult) :
    ∀ (table : List Row) (k : Nat),
      (updateTable cfg email analysis k table).1.length = table.length := by
  intro table
  induction table with
  | nil => intro k; rfl
  | cons r rs ih =>
    intro k
    rw [updateTable_fst_cons, List.length_cons, List.length_cons, ih]

lemma updateTable_count (cfg : ExcelConfig) (email : String) (analysis : AnalysisResult) :
    ∀ (table : List Row) (k : Nat),
      (updateTable cfg email analysis k table).2.1
        = (table.filter (fun r => isMatch cfg email r)).length := by
  intro table
  induction table with
  | nil => intro k; rfl
  | cons r rs ih =>
    intro k
    rw [updateTable_count_cons, ih]
    by_cases h : isMatch cfg email r <;> simp [List.filter_cons, h]

lemma getD_mem {α : Type} : ∀ (l : List α) (i : Nat) (d : α), i < l.length → l.getD i d ∈ l := by
  intro l
  induction l with
  | nil => intro i d h; simp at h
  | cons x xs ih =>
    intro i d h
    cases i with
    | zero => simp
    | succ j =>
      simp only [List.getD_cons_succ]
      exact List.mem_cons_of_mem _ (ih j d (by simpa using h))

lemma updateTable_getD (cfg : ExcelConfig) (email : String) (analysis : AnalysisResult) :
    ∀ (table : List Row) (k i : Nat), i < table.length →
      (updateTable cfg email analysis k table).1.getD i []
        = if isMatch cfg email (table.getD i []) then
            (applyFields cfg analysis (k + i) cfg.targetColumns (table.getD i [], [])).1
          else table.getD i [] := by
  intro table
  induction table with
  | nil => intro k i h; simp at h
  | cons r rs ih =>
    intro k i h
    rw [updateTable_fst_cons]
    cases i with
    | zero =>
      by_cases hm : isMatch cfg email r <;> simp [hm]
    | succ j =>
      have hj : j < rs.length := by simpa using h
      simp only [List.getD_cons_succ]
      rw [ih (k + 1) j hj]
      have harith : k + 1 + j = k + (j + 1) := by omega
      rw [harith]

lemma updateTable_mem_rowIdx (cfg : ExcelConfig) (email : String) (analysis : AnalysisResult) :
    ∀ (table : List Row) (k : Nat) (e : LogEntry),
      e ∈ (updateTable cfg email analysis k table).2.2 → k ≤ e.rowIdx := by
  intro table
  induction table with
  | nil => intro k e h; simp [updateTable] at h
  | cons r rs ih =>
    intro k e h
    rw [updateTable_logs_cons, List.mem_append] at h
    cases h with
    | inl h1 =>
      by_cases hm : isMatch cfg email r
      · rw [if_pos hm] at h1
        rcases applyFields_mem_rowIdx cfg analysis k cfg.targetColumns (r, []) e h1 with h2 | h2
        · simp at h2
        · exact le_of_eq h2.symm
      · rw [if_neg hm] at h1
        simp at h1
    | inr h1 =>
      have := ih (k + 1) e h1
      omega

lemma updateTable_logsFor (cfg : ExcelConfig) (email : String) (analysis : AnalysisResult)
    (t : String) :
    ∀ (table : List Row) (k i : Nat), k ≤ i → i - k < table.length →
      logsFor ((updateTable cfg email analysis k table).2.2) i t
        = if isMatch cfg email (table.getD (i - k) []) then
            logsFor ((applyFields cfg analysis i cfg.targetColumns (table.getD (i - k) [], [])).2) i t
          else [] := by
  intro table
  induction table with
  | nil => intro k i h1 h2; simp at h2
  | cons r rs ih =>
    intro k i h1 h2
    rw [updateTable_logs_cons, logsFor_append]
    by_cases hk : i = k
    · subst hk
      have htail : logsFor ((updateTable cfg email analysis (i + 1) rs).2.2) i t = [] := by
        apply List.filter_eq_nil.mpr
        intro e he
        have hbd := updateTable_mem_rowIdx cfg email analysis rs (i + 1) e he
        have : (e.rowIdx == i) = false := by
          simp only [beq_eq_false_iff_ne, ne_eq]
          omega
        simp [this]
      rw [htail, List.append_nil]
      have hz : i - i = 0 := by omega
      rw [hz]
      by_cases hm : isMatch cfg email r
      · simp only [List.getD_cons_zero]
        rw [if_pos hm, if_pos hm]
      · simp only [List.getD_cons_zero]
        rw [if_neg hm, if_neg hm]
        rfl
    · have hki : k < i := Nat.lt_of_le_of_ne h1 (fun he => hk he.symm)
      have hhead :
          logsFor (if isMatch cfg email r
                   then (applyFields cfg analysis k cfg.targetColumns (r, [])).2
                   else []) i t = [] := by
        by_cases hm : isMatch cfg email r
        · rw [if_pos hm]
          apply List.filter_eq_nil.mpr
          intro e he
          rcases applyFields_mem_rowIdx cfg analysis k cfg.targetColumns (r, []) e he with h0 | h0
          · simp at h0
          · have : (e.rowIdx == i) = false := by
              simp only [beq_eq_false_iff_ne, ne_eq]
              omega
            simp [this]
        · rw [if_neg hm]; rfl
      rw [hhead, List.nil_append]
      have h1' : k + 1 ≤ i := hki
      have h2' : i - (k + 1) < rs.length := by
        have hlen : i - k < rs.length + 1 := by simpa using h2
        omega
      rw [ih (k + 1) i h1' h2']
      have harith : i - k = (i - (k + 1)) + 1 := by omega
      rw [harith, List.getD_cons_succ]

/-! ## Claim C4 -/

/-- C4: when no row's lower-cased mail column equals the lower-cased email,
`update_data` returns after the warning with the table, the counters and the
change log untouched — every cell is as before, `stats.updated_rows` (and
the rest of `stats`) is unchanged, and no exception path is entered (the
function returns a value for every such input). -/
theorem update_data_no_match (cfg : ExcelConfig) (table : List Row) (stats : ProcessingStats)
    (email : String) (td : Thread) (analysis : AnalysisResult)
    (h : ∀ r ∈ table, isMatch cfg email r = false) :
    update_data cfg table stats email td analysis = (table, stats, []) := by
  have hf : table.filter (fun r => isMatch cfg email r) = [] := by
    apply List.filter_eq_nil.mpr
    intro a ha
    simp [h a ha]
  have hc : (updateTable cfg email analysis 0 table).2.1 = 0 := by
    rw [updateTable_count, hf]
    rfl
  simp only [update_data]
  rw [hc]
  simp

/-- Witness for C4: an email present in no row. -/
theorem update_data_no_match_witness :
    (∀ r ∈ wTable, isMatch wCfg "zz@q.r" r = false)
    ∧ update_data wCfg wTable ⟨0, 0, 0⟩ "zz@q.r" wThread [("status", "x")]
        = (wTable, ⟨0, 0, 0⟩, []) :=
  ⟨by decide,
   update_data_no_match wCfg wTable ⟨0, 0, 0⟩ "zz@q.r" wThread [("status", "x")] (by decide)⟩

/-! ## Claim C5 -/

/-- C5: in `update_data`, for every matched row `i` and every target field
`t` that occurs in both the analysis result and the configured target-field
list (distinct physical target columns, column present as validated by
`check_structure`): when the analysis value equals the current cell the cell
keeps its value and no change line for that row and field is logged; when it
differs the cell is overwritten with the new value and exactly one line logs
the old and the new value. -/
theorem update_data_cell_char (cfg : ExcelConfig) (table : List Row) (stats : ProcessingStats)
    (email : String) (td : Thread) (analysis : AnalysisResult) (i : Nat) (t v : String)
    (hnd : (cfg.targetColumns.map cfg.colMap).Nodup)
    (hi : i < table.length)
    (hm : isMatch cfg email (table.getD i []) = true)
    (ht : t ∈ cfg.targetColumns)
    (hv : lookupA analysis t = some v)
    (hc : hasCol (table.getD i []) (cfg.colMap t) = true) :
    getCell ((update_data cfg table stats email td analysis).1.getD i []) (cfg.colMap t)
      = (if getCell (table.getD i []) (cfg.colMap t) = v
         then getCell (table.getD i []) (cfg.colMap t) else v)
    ∧ logsFor ((update_data cfg table stats email td analysis).2.2) i t
      = (if getCell (table.getD i []) (cfg.colMap t) = v then []
         else [⟨i, t, getCell (table.getD i []) (cfg.colMap t), v⟩]) := by
  have hmem : table.getD i [] ∈ table := getD_mem table i [] hi
  have hfil : ¬ ((updateTable cfg email analysis 0 table).2.1 = 0) := by
    rw [updateTable_count]
    intro h0
    rw [List.length_eq_zero] at h0
    have : table.getD i [] ∈ table.filter (fun r => isMatch cfg email r) :=
      List.mem_filter.mpr ⟨hmem, hm⟩
    rw [h0] at this
    simp at this
  have hchar := applyFields_field_char cfg analysis i cfg.targetColumns
    (table.getD i []) [] t v hnd ht hv hc
  constructor
  · simp only [update_data]
    rw [if_neg hfil]
    show getCell ((updateTable cfg email analysis 0 table).1.getD i []) (cfg.colMap t) = _
    rw [updateTable_getD cfg email analysis table 0 i hi, Nat.zero_add, if_pos hm]
    exact hchar.1
  · simp only [update_data]
    rw [if_neg hfil]
    show logsFor ((updateTable cfg email analysis 0 table).2.2) i t = _
    have h0 : (0 : Nat) ≤ i := Nat.zero_le i
    have h1 : i - 0 < table.length := by simpa using hi
    rw [updateTable_logsFor cfg email analysis t table 0 i h0 h1, Nat.sub_zero, if_pos hm]
    rw [hchar.2]
    simp [logsFor]

/-- Witness for C5: row 0 of `wTable` with a differing value, overwritten
and logged once with old and new value. -/
theorem update_data_cell_char_witness :
    (0 < wTable.length)
    ∧ getCell ((update_data wCfg wTable ⟨0, 0, 0⟩ "a@b.c" wThread [("status", "new")]).1.getD 0 [])
        (wCfg.colMap "status") = "new"
    ∧ logsFor ((update_data wCfg wTable ⟨0, 0, 0⟩ "a@b.c" wThread [("status", "new")]).2.2)
        0 "status" = [⟨0, "status", "old", "new"⟩] := by
  have h := update_data_cell_char wCfg wTable ⟨0, 0, 0⟩ "a@b.c" wThread [("status", "new")]
    0 "status" "new" (by decide) (by decide) (by decide) (by decide) (by decide) (by decide)
  refine ⟨by decide, ?_, ?_⟩
  · rw [h.1]
    decide
  · rw [h.2]
    decide

/-! ## Claim C6 -/

/-- C6: every call of `update_data` with at least one matching row grows
`stats.updated_rows` by exactly the number of matched rows, whatever the
analysis result (so independently of how many cells actually changed), and
matched rows may number more than one since the mail key is not unique. -/
theorem update_data_counts_matches (cfg : ExcelConfig) (table : List Row)
    (stats : ProcessingStats) (email : String) (td : Thread) (analysis : AnalysisResult)
    (h : (table.filter (fun r => isMatch cfg email r)).length ≠ 0) :
    (update_data cfg table stats email td analysis).2.1.updated_rows
      = stats.updated_rows + (table.filter (fun r => isMatch cfg email r)).length := by
  have hc : (updateTable cfg email analysis 0 table).2.1
      = (table.filter (fun r => isMatch cfg email r)).length :=
    updateTable_count cfg email analysis table 0
  simp only [update_data]
  rw [hc, if_neg h]

/-- Witness for C6: both rows of `wTable` match `a@b.c`; the analysis value
changes only the first row's cell, yet `updated_rows` grows by 2. -/
theorem update_data_counts_matches_witness :
    ((wTable.filter (fun r => isMatch wCfg "a@b.c" r)).length = 2)
    ∧ (update_data wCfg wTable ⟨0, 0, 0⟩ "a@b.c" wThread [("status", "new")]).2.1.updated_rows
        = 0 + 2 := by
  refine ⟨by decide, ?_⟩
  have h := update_data_counts_matches wCfg wTable ⟨0, 0, 0⟩ "a@b.c" wThread
    [("status", "new")] (by decide)
  rw [h]
  decide

/-! ## Lemmas: the fetch loop -/

lemma fetchLoop_error_of_exn (sess : ImapSession) :
    ∀ (ids : List Nat) (stats : ProcessingStats),
      (∃ i ∈ ids, raises (sess.fetchResult i) = true) →
      ∃ s, fetchLoop sess stats ids = Except.error s ∧ s.errors = stats.errors := by
  intro ids
  induction ids with
  | nil =>
    intro stats h
    rcases h with ⟨i, hi, _⟩
    simp at hi
  | cons i rest ih =>
    intro stats h
    cases hf : sess.fetchResult i with
    | error u => exact ⟨stats, by simp [fetchLoop, hf], rfl⟩
    | ok pr =>
      obtain ⟨st, raw⟩ := pr
      have hex : ∃ j ∈ rest, raises (sess.fetchResult j) = true := by
        rcases h with ⟨j, hj, hrj⟩
        rcases List.mem_cons.mp hj with he | hmem
        · subst he
          rw [hf] at hrj
          simp [raises] at hrj
        · exact ⟨j, hmem, hrj⟩
      by_cases hst : st = "OK"
      · obtain ⟨s, hs, he⟩ :=
          ih { stats with processed_emails := stats.processed_emails + 1 } hex
        exact ⟨s, by simp [fetchLoop, hf, hst, hs], he⟩
      · obtain ⟨s, hs, he⟩ := ih stats hex
        exact ⟨s, by simp [fetchLoop, hf, hst, hs], he⟩

lemma fetchLoop_ok_count (sess : ImapSession) :
    ∀ (ids : List Nat) (stats : ProcessingStats),
      (∀ i ∈ ids, raises (sess.fetchResult i) = false) →
      ∃ es s, fetchLoop sess stats ids = Except.ok (es, s)
        ∧ s.processed_emails
            = stats.processed_emails + (ids.filter (fun i => fetchOK sess i)).length
        ∧ s.errors = stats.errors
        ∧ es.length = (ids.filter (fun i => fetchOK sess i)).length := by
  intro ids
  induction ids with
  | nil => intro stats _; exact ⟨[], stats, rfl, by simp, rfl, rfl⟩
  | cons i rest ih =>
    intro stats h
    have hrest : ∀ j ∈ rest, raises (sess.fetchResult j) = false :=
      fun j hj => h j (List.mem_cons_of_mem _ hj)
    cases hf : sess.fetchResult i with
    | error u =>
      have := h i (List.mem_cons_self _ _)
      rw [hf] at this
      simp [raises] at this
    | ok pr =>
      obtain ⟨st, raw⟩ := pr
      by_cases hst : st = "OK"
      · obtain ⟨es, s, hs, hproc, herr, hlen⟩ :=
          ih { stats with processed_emails := stats.processed_emails + 1 } hrest
        refine ⟨parse_email raw (toString i) :: es, s, ?_, ?_, herr, ?_⟩
        · simp [fetchLoop, hf, hst, hs]
        · have hok : fetchOK sess i = true := by simp [fetchOK, hf, hst]
          rw [hproc]
          simp [List.filter_cons, hok]
          omega
        · have hok : fetchOK sess i = true := by simp [fetchOK, hf, hst]
          rw [List.length_cons, hlen]
          simp [List.filter_cons, hok]
      · obtain ⟨es, s, hs, hproc, herr, hlen⟩ := ih stats hrest
        refine ⟨es, s, ?_, ?_, herr, ?_⟩
        · simp [fetchLoop, hf, hst, hs]
        · have hok : fetchOK sess i = false := by simp [fetchOK, hf, hst]
          rw [hproc]
          simp [List.filter_cons, hok]
        · have hok : fetchOK sess i = false := by simp [fetchOK, hf, hst]
          rw [hlen]
          simp [List.filter_cons, hok]

/-! ## Claim C7 -/

/-- C7 counterexample: a search that completes with a non-OK status is a
failed search for the whole operation, yet `fetch_sent_emails` returns the
empty list with `stats.errors` unchanged (0, not 1), contradicting
"increments stats.errors by one" for every search failure. -/
theorem fetch_search_bad_status_keeps_errors :
    (fetch_sent_emails wSessNoStatus ⟨0, 0, 0⟩).1 = []
    ∧ (fetch_sent_emails wSessNoStatus ⟨0, 0, 0⟩).2.errors = 0 := by
  constructor <;> rfl

/-- C7 (amended): an exception anywhere in the operation (folder selection,
search, or any single message fetch) makes `fetch_sent_emails` return the
empty list and increment `stats.errors` by exactly one instead of
propagating; a search that merely completes with a non-OK status returns the
empty list without touching `stats.errors`; and `fetch_replies` behaves
identically to `fetch_sent_emails`. -/
theorem fetch_failure_policy :
    (∀ (sess : ImapSession) (stats : ProcessingStats),
       (raises sess.selectResult || raises sess.searchResult) = true →
       fetch_sent_emails sess stats = ([], { stats with errors := stats.errors + 1 }))
    ∧ (∀ (sess : ImapSession) (stats : ProcessingStats) (ids : List Nat),
       sess.selectResult = Except.ok () → sess.searchResult = Except.ok ("OK", ids) →
       (∃ i ∈ ids, raises (sess.fetchResult i) = true) →
       (fetch_sent_emails sess stats).1 = []
       ∧ (fetch_sent_emails sess stats).2.errors = stats.errors + 1)
    ∧ (∀ (sess : ImapSession) (stats : ProcessingStats) (status : String) (ids : List Nat),
       sess.selectResult = Except.ok () → sess.searchResult = Except.ok (status, ids) →
       status ≠ "OK" →
       fetch_sent_emails sess stats = ([], stats))
    ∧ (∀ (mid : String) (sess : ImapSession) (stats : ProcessingStats),
       fetch_replies mid sess stats = fetch_sent_emails sess stats) := by
  refine ⟨?_, ?_, ?_, fun mid sess stats => rfl⟩
  · intro sess stats h
    cases hsel : sess.selectResult with
    | error u => simp [fetch_sent_emails, fetchSentCore, hsel]
    | ok u =>
      cases hsr : sess.searchResult with
      | error w => simp [fetch_sent_emails, fetchSentCore, hsel, hsr]
      | ok pr =>
        rw [hsel, hsr] at h
        simp [raises] at h
  · intro sess stats ids hsel hsr hex
    obtain ⟨s, hs, he⟩ := fetchLoop_error_of_exn sess ids stats hex
    constructor
    · simp [fetch_sent_emails, fetchSentCore, hsel, hsr, hs]
    · simp [fetch_sent_emails, fetchSentCore, hsel, hsr, hs, he]
  · intro sess stats status ids hsel hsr hstatus
    simp [fetch_sent_emails, fetchSentCore, hsel, hsr, hstatus]

/-- Witness for C7 (amended): a raising fetch increments `errors` by one
with an empty result; a non-OK search status leaves `errors` at zero. -/
theorem fetch_failure_policy_witness :
    ((fetch_sent_emails wSessFetchRaises ⟨0, 0, 0⟩).1 = []
      ∧ (fetch_sent_emails wSessFetchRaises ⟨0, 0, 0⟩).2.errors = 0 + 1)
    ∧ fetch_sent_emails wSessNoStatus ⟨0, 0, 0⟩ = ([], ⟨0, 0, 0⟩)
    ∧ fetch_replies "<m1>" wSessNoStatus ⟨0, 0, 0⟩ = fetch_sent_emails wSessNoStatus ⟨0, 0, 0⟩ := by
  refine ⟨?_, ?_, ?_⟩
  · exact fetch_failure_policy.2.1 wSessFetchRaises ⟨0, 0, 0⟩ [1, 2] rfl rfl
      ⟨2, by decide, by decide⟩
  · exact fetch_failure_policy.2.2.1 wSessNoStatus ⟨0, 0, 0⟩ "NO" [] rfl rfl (by decide)
  · exact fetch_failure_policy.2.2.2 "<m1>" wSessNoStatus ⟨0, 0, 0⟩

/-! ## Lemmas: the orchestrator loop -/

lemma update_data_stats_frame (cfg : ExcelConfig) (table : List Row) (stats : ProcessingStats)
    (email : String) (td : Thread) (analysis : AnalysisResult) :
    (update_data cfg table stats email td analysis).2.1.processed_emails = stats.processed_emails
    ∧ (update_data cfg table stats email td analysis).2.1.errors = stats.errors := by
  simp only [update_data]
  by_cases h : (updateTable cfg email analysis 0 table).2.1 = 0
  · rw [if_pos h]
    exact ⟨rfl, rfl⟩
  · rw [if_neg h]
    exact ⟨rfl, rfl⟩

lemma processThreadMsgs_ok_count (cfg : ExcelConfig)
    (analyze : String → Option String → Except Unit AnalysisResult) (th : Thread) :
    ∀ (msgs : List ThreadMessage) (st : PipelineState),
      (∀ m ∈ msgs, m.processed = true ∨ raises (analyze m.body th.context) = false) →
      ∃ st', processThreadMsgs cfg analyze th msgs st = Except.ok st'
        ∧ st'.stats.processed_emails
            = st.stats.processed_emails
                + (msgs.filter (analysisSucceeds analyze th.context)).length := by
  intro msgs
  induction msgs with
  | nil => intro st _; exact ⟨st, rfl, by simp⟩
  | cons m ms ih =>
    intro st h
    have hrest : ∀ m' ∈ ms, m'.processed = true ∨ raises (analyze m'.body th.context) = false :=
      fun m' hm' => h m' (List.mem_cons_of_mem _ hm')
    by_cases hp : m.processed = true
    · obtain ⟨st', hs, hc⟩ := ih st hrest
      refine ⟨st', by simp [processThreadMsgs, hp, hs], ?_⟩
      rw [hc]
      have hns : analysisSucceeds analyze th.context m = false := by
        simp [analysisSucceeds, hp]
      simp [List.filter_cons, hns]
    · have hp' : m.processed = false := by simpa using hp
      have hnr : raises (analyze m.body th.context) = false := by
        rcases h m (List.mem_cons_self _ _) with h1 | h1
        · rw [hp'] at h1; cases h1
        · exact h1
      cases han : analyze m.body th.context with
      | error u => rw [han] at hnr; simp [raises] at hnr
      | ok res =>
        by_cases herr : hasErrKey res = true
        · obtain ⟨st', hs, hc⟩ := ih st hrest
          refine ⟨st', by simp [processThreadMsgs, hp', han, herr, hs], ?_⟩
          rw [hc]
          have hns : analysisSucceeds analyze th.context m = false := by
            simp [analysisSucceeds, hp', han, herr]
          simp [List.filter_cons, hns]
        · have herr' : hasErrKey res = false := by simpa using herr
          obtain ⟨st', hs, hc⟩ := ih
            { table := (update_data cfg st.table st.stats m.fromAddr th res).1
              stats := { (update_data cfg st.table st.stats m.fromAddr th res).2.1 with
                         processed_emails :=
                           (update_data cfg st.table st.stats m.fromAddr th res).2.1.processed_emails + 1 }
              readIds := mark_as_read st.readIds m.messageId } hrest
          refine ⟨st', by simp [processThreadMsgs, hp', han, herr', hs], ?_⟩
          rw [hc]
          have hframe := (update_data_stats_frame cfg st.table st.stats m.fromAddr th res).1
          have hsucc : analysisSucceeds analyze th.context m = true := by
            simp [analysisSucceeds, hp', han, herr']
          simp only [List.filter_cons, hsucc, if_pos, List.length_cons]
          simp [hframe]
          omega

lemma processThreads_ok_count (cfg : ExcelConfig)
    (analyze : String → Option String → Except Unit AnalysisResult) :
    ∀ (threads : List Thread) (st : PipelineState),
      (∀ th ∈ threads, noAnalysisExn analyze th = true) →
      ∃ st', processThreads cfg analyze threads st = Except.ok st'
        ∧ st'.stats.processed_emails
            = st.stats.processed_emails + totalSuccCount analyze threads := by
  intro threads
  induction threads with
  | nil => intro st _; exact ⟨st, rfl, by simp [totalSuccCount]⟩
  | cons th ths ih =>
    intro st h
    have h1 : noAnalysisExn analyze th = true := h th (List.mem_cons_self _ _)
    have h1' : ∀ m ∈ th.messages,
        m.processed = true ∨ raises (analyze m.body th.context) = false := by
      intro m hm
      have := (List.all_eq_true.mp h1) m hm
      cases hp : m.processed with
      | true => exact Or.inl rfl
      | false =>
        right
        rw [hp] at this
        simpa using this
    obtain ⟨st₁, hs1, hc1⟩ := processThreadMsgs_ok_count cfg analyze th th.messages st h1'
    obtain ⟨st', hs2, hc2⟩ := ih st₁ (fun u hu => h u (List.mem_cons_of_mem _ hu))
    refine ⟨st', by simp [processThreads, hs1, hs2], ?_⟩
    rw [hc2, hc1]
    simp [totalSuccCount, threadSuccCount, List.map_cons, List.sum_cons]
    omega

/-! ## Claim C3 -/

/-- C3: in `process_emails`, a message whose analysis result carries the
`"error"` key is skipped entirely — the table, the read flags, and all
counters (including `stats.errors` and `stats.processed_emails`) are exactly
as before; a message whose result lacks the key has `update_data` applied
for its sender, is marked read, and adds exactly 1 to
`stats.processed_emails`. -/
theorem process_message_dispatch (cfg : ExcelConfig)
    (analyze : String → Option String → Except Unit AnalysisResult) (ctx : Option String)
    (m : ThreadMessage) (st : PipelineState) (res : AnalysisResult)
    (hp : m.processed = false)
    (ha : analyze m.body ctx = Except.ok res) :
    (hasErrKey res = true →
      process_emails cfg analyze [⟨[m], ctx⟩] st = Except.ok st)
    ∧ (hasErrKey res = false →
      process_emails cfg analyze [⟨[m], ctx⟩] st = Except.ok
        { table := (update_data cfg st.table st.stats m.fromAddr ⟨[m], ctx⟩ res).1
          stats := { (update_data cfg st.table st.stats m.fromAddr ⟨[m], ctx⟩ res).2.1 with
                     processed_emails :=
                       (update_data cfg st.table st.stats m.fromAddr ⟨[m], ctx⟩ res).2.1.processed_emails + 1 }
          readIds := mark_as_read st.readIds m.messageId }) := by
  constructor
  · intro herr
    simp [process_emails, get_email_threads, processThreads, processThreadMsgs, hp, ha, herr]
  · intro herr
    simp [process_emails, get_email_threads, processThreads, processThreadMsgs, hp, ha, herr]

/-- Witness for C3, following the spec scenario: an `"error"` result leaves
the state untouched; a clean result updates both matching rows, marks the
message read, and adds 1 to `processed_emails` (and 2 to `updated_rows`). -/
theorem process_message_dispatch_witness :
    process_emails wCfg wAnalyze [⟨[⟨"a@b.c", "<m1>", "e", false⟩], none⟩]
        ⟨wTable, ⟨0, 0, 0⟩, []⟩
      = Except.ok ⟨wTable, ⟨0, 0, 0⟩, []⟩
    ∧ process_emails wCfg wAnalyze [⟨[⟨"a@b.c", "<m2>", "ok", false⟩], none⟩]
        ⟨wTable, ⟨0, 0, 0⟩, []⟩
      = Except.ok ⟨[[("Mail", "A@b.c"), ("Status", "done")], [("Mail", "a@b.c"), ("Status", "done")]],
                   ⟨1, 2, 0⟩, ["<m2>"]⟩ := by
  constructor
  · exact (process_message_dispatch wCfg wAnalyze none ⟨"a@b.c", "<m1>", "e", false⟩
      ⟨wTable, ⟨0, 0, 0⟩, []⟩ [("error", "model unavailable")] rfl rfl).1 (by decide)
  · have h := (process_message_dispatch wCfg wAnalyze none ⟨"a@b.c", "<m2>", "ok", false⟩
      ⟨wTable, ⟨0, 0, 0⟩, []⟩ [("status", "done")] rfl rfl).2 (by decide)
    rw [h]
    exact congrArg Except.ok (by decide)

/-! ## Claim C8 -/

/-- C8: an exception escaping the processing loop is re-raised after
`stats.errors` is incremented once; `save_data` is never invoked in that
run, the tabular file on disk is exactly as before the run, and the process
exits with code 1 — the in-memory table changes of the run are discarded. -/
theorem loop_exception_discards_run (cfg : ExcelConfig)
    (analyze : String → Option String → Except Unit AnalysisResult)
    (threads : List Thread) (st₀ : PipelineState) (disk : Disk) (stR : PipelineState)
    (h : processThreads cfg analyze (get_email_threads threads) st₀ = Except.error stR) :
    process_emails cfg analyze threads st₀
        = Except.error { stR with stats := { stR.stats with errors := stR.stats.errors + 1 } }
    ∧ runAfterLoad (process_emails cfg analyze threads st₀) disk
        = (1, disk, false,
           { stR with stats := { stR.stats with errors := stR.stats.errors + 1 } }) := by
  have h1 : process_emails cfg analyze threads st₀
      = Except.error { stR with stats := { stR.stats with errors := stR.stats.errors + 1 } } := by
    simp [process_emails, h]
  refine ⟨h1, ?_⟩
  rw [h1]
  rfl


/-- Witness for C8: the analysis call raises on the first message; the run
aborts with exit code 1, the disk keeps its prior content, and `errors` goes
from 0 to 1. -/
theorem loop_exception_discards_run_witness :
    processThreads wCfg wAnalyze
        (get_email_threads [⟨[⟨"a@b.c", "<m3>", "raise", false⟩], none⟩])
        ⟨wTable, ⟨0, 0, 0⟩, []⟩
      = Except.error ⟨wTable, ⟨0, 0, 0⟩, []⟩
    ∧ runAfterLoad
        (process_emails wCfg wAnalyze [⟨[⟨"a@b.c", "<m3>", "raise", false⟩], none⟩]
          ⟨wTable, ⟨0, 0, 0⟩, []⟩)
        ⟨wTable⟩
      = (1, ⟨wTable⟩, false, ⟨wTable, ⟨0, 0, 1⟩, []⟩) := by
  have h : processThreads wCfg wAnalyze
      (get_email_threads [⟨[⟨"a@b.c", "<m3>", "raise", false⟩], none⟩])
      ⟨wTable, ⟨0, 0, 0⟩, []⟩ = Except.error ⟨wTable, ⟨0, 0, 0⟩, []⟩ := rfl
  refine ⟨h, ?_⟩
  have h2 := (loop_exception_discards_run wCfg wAnalyze
    [⟨[⟨"a@b.c", "<m3>", "raise", false⟩], none⟩] ⟨wTable, ⟨0, 0, 0⟩, []⟩ ⟨wTable⟩
    ⟨wTable, ⟨0, 0, 0⟩, []⟩ h).2
  rw [h2]

/-! ## Claim C10 -/

/-- C10: `fetch_sent_emails` (and the identically behaving `fetch_replies`)
increments `stats.processed_emails` by one per successfully fetched message
— analysis plays no part in these functions — while the orchestrator loop
adds one more per successfully analysed message; the counter therefore sums
fetched and analysed messages and does not equal the number of successfully
processed emails. -/
theorem processed_emails_double_counted :
    (∀ (sess : ImapSession) (stats : ProcessingStats) (ids : List Nat),
       sess.selectResult = Except.ok () → sess.searchResult = Except.ok ("OK", ids) →
       (∀ i ∈ ids, raises (sess.fetchResult i) = false) →
       (fetch_sent_emails sess stats).2.processed_emails
           = stats.processed_emails + (ids.filter (fun i => fetchOK sess i)).length
       ∧ (fetch_sent_emails sess stats).1.length
           = (ids.filter (fun i => fetchOK sess i)).length)
    ∧ (∀ (mid : String) (sess : ImapSession) (stats : ProcessingStats),
       fetch_replies mid sess stats = fetch_sent_emails sess stats)
    ∧ (∀ (cfg : ExcelConfig) (analyze : String → Option String → Except Unit AnalysisResult)
         (threads : List Thread) (st : PipelineState),
       (∀ th ∈ threads, noAnalysisExn analyze th = true) →
       ∃ st', process_emails cfg analyze threads st = Except.ok st'
         ∧ st'.stats.processed_emails
             = st.stats.processed_emails + totalSuccCount analyze threads) := by
  refine ⟨?_, fun mid sess stats => rfl, ?_⟩
  · intro sess stats ids hsel hsr hall
    obtain ⟨es, s, hs, hproc, herr, hlen⟩ := fetchLoop_ok_count sess ids stats hall
    constructor
    · simp [fetch_sent_emails, fetchSentCore, hsel, hsr, hs, hproc]
    · simp [fetch_sent_emails, fetchSentCore, hsel, hsr, hs, hlen]
  · intro cfg analyze threads st h
    obtain ⟨st', hs, hc⟩ := processThreads_ok_count cfg analyze threads st h
    exact ⟨st', by simp [process_emails, get_email_threads, hs], hc⟩

/-- Witness for C10: two fetched messages already make `processed_emails` 2
before any analysis; a later successful analysis adds 1 more, so the final
value 3 exceeds the single successfully processed email. -/
theorem processed_emails_double_counted_witness :
    (fetch_sent_emails wSessTwo ⟨0, 0, 0⟩).2.processed_emails = 0 + 2
    ∧ (∃ st', process_emails wCfg wAnalyze [⟨[⟨"a@b.c", "<m2>", "ok", false⟩], none⟩]
          ⟨wTable, ⟨2, 0, 0⟩, []⟩ = Except.ok st'
        ∧ st'.stats.processed_emails = 2 + 1) := by
  constructor
  · have h := (processed_emails_double_counted.1 wSessTwo ⟨0, 0, 0⟩ [1, 2] rfl rfl
      (by decide)).1
    rw [h]
    decide
  · obtain ⟨st', h1, h2⟩ := processed_emails_double_counted.2.2 wCfg wAnalyze
      [⟨[⟨"a@b.c", "<m2>", "ok", false⟩], none⟩] ⟨wTable, ⟨2, 0, 0⟩, []⟩ (by decide)
    refine ⟨st', h1, ?_⟩
    rw [h2]
    decide

end EmailPipeline
